import Mathlib

/-!
Verification of the retrieval pipeline of a small RAG service.

The definitions below are shallow embeddings of the Python functions in
`backend/app/services/` (`vector_store_service.py`, `rag_service.py`,
`document_service.py`) and of the configuration defaults in
`backend/app/core/config.py`.  External collaborators (the Chroma vector
store, the embedding model, the language model, the file system and the
format readers) are modelled as explicit oracles/parameters.  The text
splitter used by `create_chunks_with_metadata` is langchain library code that
is not part of the repository; it is modelled from the specification's
description of the chunking algorithm.
-/

/-- Configuration default `Settings.CHUNK_SIZE` from `app/core/config.py`. -/
def CHUNK_SIZE : Nat := 1000

/-- Configuration default `Settings.CHUNK_OVERLAP` from `app/core/config.py`. -/
def CHUNK_OVERLAP : Nat := 200

/-- Python `str.strip()`: remove leading and trailing whitespace. -/
def pyStrip (s : String) : String :=
  ⟨((s.data.dropWhile Char.isWhitespace).reverse.dropWhile Char.isWhitespace).reverse⟩

/-- Python `str.endswith(suf)`. -/
def pyEndsWith (s suf : String) : Bool :=
  suf.data.isSuffixOf s.data

/-- Chunk metadata as built by `create_chunks_with_metadata`
(`app/services/document_service.py`); every value stored there is a string. -/
structure Metadata where
  document_id : String
  document : String
  page : String
  text : String
  user_id : String
  source : String
  created_at : String
  deriving DecidableEq, Repr

/-- A langchain `Document` as stored in and returned from the vector index:
`page_content` plus `metadata`. -/
structure Doc where
  page_content : String
  metadata : Metadata
  deriving DecidableEq, Repr

/-- Modelled from the spec: the character-level fallback of the recursive
splitter (langchain `RecursiveCharacterTextSplitter`, not in the repository
source).  Splits a character list into consecutive blocks of at most `cs`
characters; `fuel` bounds the recursion and never runs out when
`fuel ≥ l.length`, as in `charBlocks` below. -/
def charBlocksF (cs : Nat) : Nat → List Char → List (List Char)
  | _, [] => []
  | 0, l => [l]
  | fuel + 1, l => l.take cs :: charBlocksF cs fuel (l.drop cs)

/-- Modelled from the spec: split into blocks of at most `cs` characters. -/
def charBlocks (cs : Nat) (l : List Char) : List (List Char) :=
  charBlocksF cs l.length l

/-- Modelled from the spec: split `l` at every occurrence of the separator
`s0 :: st`, keeping the separator attached to the piece before it, so that
the pieces concatenate back to the input.  `acc` is the reversed current
piece; `fuel` bounds the recursion and never runs out when `fuel ≥ l.length`. -/
def splitKeepGoF (s0 : Char) (st : List Char) : Nat → List Char → List Char → List (List Char)
  | _, [], acc => if acc.isEmpty then [] else [acc.reverse]
  | 0, l, acc => [acc.reverse ++ l]
  | fuel + 1, c :: rest, acc =>
    if (s0 :: st).isPrefixOf (c :: rest) then
      (acc.reverse ++ s0 :: st) :: splitKeepGoF s0 st fuel (rest.drop st.length) []
    else
      splitKeepGoF s0 st fuel rest (c :: acc)

/-- Modelled from the spec: one level of separator splitting (the empty
separator, which stands for character-level splitting, is handled by
`charBlocks` instead and returns the input unsplit here). -/
def splitListKeep (sep : List Char) (l : List Char) : List (List Char) :=
  match sep with
  | [] => [l]
  | s0 :: st => splitKeepGoF s0 st l.length l []

/-- Modelled from the spec: the separator hierarchy paragraph → line → word
tried by the recursive splitter before falling back to raw characters. -/
def defaultSeparators : List (List Char) := [['\n', '\n'], ['\n'], [' ']]

/-- Modelled from the spec: recursive splitting.  A piece that already fits
in `cs` characters is kept whole; otherwise it is split at the current
separator and each sub-piece is split further with the remaining separators,
falling back to raw `cs`-character blocks when no separator is left. -/
def splitRec (cs : Nat) : List (List Char) → List Char → List (List Char)
  | [], l => if l.length ≤ cs then [l] else charBlocks cs l
  | sep :: rest, l =>
    if l.length ≤ cs then [l]
    else ((splitListKeep sep l).map (splitRec cs rest)).flatten

/-- Total character length of a list of pieces. -/
def totLen (l : List (List Char)) : Nat := (l.map List.length).sum

/-- A chunk produced by merging: the pieces carried over from the previous
chunk (the overlap region) and the fresh pieces first covered by this chunk.
The chunk's text is the concatenation of both. -/
structure MC where
  carry : List (List Char)
  fresh : List (List Char)
  deriving DecidableEq, Repr

/-- All pieces of a merged chunk, overlap first. -/
def chunkPieces (c : MC) : List (List Char) := c.carry ++ c.fresh

/-- Character length of a merged chunk. -/
def chunkLen (c : MC) : Nat := totLen (chunkPieces c)

/-- Text of a merged chunk. -/
def chunkText (c : MC) : List Char := (chunkPieces c).flatten

/-- Longest prefix of the list whose total length is at most `m`. -/
def prefixLE (m : Nat) : List (List Char) → List (List Char)
  | [] => []
  | p :: rest => if p.length ≤ m then p :: prefixLE (m - p.length) rest else []

/-- Longest suffix of the list whose total length is at most `m`. -/
def suffixLE (m : Nat) (l : List (List Char)) : List (List Char) :=
  (prefixLE m l.reverse).reverse

/-- Modelled from the spec: greedy merging of pieces into chunks of at most
`cs` characters; when a chunk is full the next chunk starts with the longest
suffix of the emitted chunk that fits in the configured overlap `ov` and
still leaves room for the next piece. -/
def mergeGo (cs ov : Nat) (cur : MC) : List (List Char) → List MC
  | [] => [cur]
  | p :: rest =>
    if chunkLen cur + p.length ≤ cs then
      mergeGo cs ov ⟨cur.carry, cur.fresh ++ [p]⟩ rest
    else
      cur :: mergeGo cs ov ⟨suffixLE (min ov (cs - p.length)) (chunkPieces cur), [p]⟩ rest

/-- Modelled from the spec: merge a piece list into overlapping chunks. -/
def mergePieces (cs ov : Nat) : List (List Char) → List MC
  | [] => []
  | p :: rest => mergeGo cs ov ⟨[], [p]⟩ rest

/-- Modelled from the spec: chunk one unit of text, given as characters —
recursively split with the separator hierarchy, then merge with overlap. -/
def chunkUnit (cs ov : Nat) (l : List Char) : List MC :=
  mergePieces cs ov (splitRec cs defaultSeparators l)

/-- Modelled from the spec: `RecursiveCharacterTextSplitter.split_text` as
configured by `create_chunks_with_metadata` (the splitter is langchain
library code missing from the repository).  Empty or whitespace-only input
yields no chunks. -/
def split_text (cs ov : Nat) (s : String) : List String :=
  if pyStrip s = "" then []
  else (chunkUnit cs ov s.data).map fun c => String.mk (chunkText c)

/-- Python expression `str(page_num) if page_num is not None else "0"` from
`create_chunks_with_metadata`: the page field, with sentinel `"0"` when the
unit has no page label. -/
def pageLabel : Option Nat → String
  | some n => toString n
  | none => "0"

/-- One produced chunk record, the dict `{"text": chunk, "metadata": {...}}`
appended by `create_chunks_with_metadata`. -/
structure ChunkRec where
  text : String
  metadata : Metadata
  deriving DecidableEq, Repr

/-- Shallow embedding of `create_chunks_with_metadata`
(`app/services/document_service.py`).  `now` stands for
`datetime.utcnow().isoformat()`; each unit is a pair of an optional page
number and the unit's text. -/
def create_chunks_with_metadata (text_by_page : List (Option Nat × String))
    (document_id filename user_id now : String) : List ChunkRec :=
  (text_by_page.map fun pt =>
    (split_text CHUNK_SIZE CHUNK_OVERLAP pt.2).map fun chunk =>
      ChunkRec.mk chunk
        (Metadata.mk document_id filename (pageLabel pt.1) chunk user_id
          (match pt.1 with
           | some n => filename ++ " (page " ++ toString n ++ ")"
           | none => filename)
          now)).flatten

/-- Environment of `query_vectorstore`: the persisted index entries, the two
failure modes the code guards against (vector-store initialisation failure,
failing similarity search) and the similarity score Chroma ranks by (the
embedding model is external, so the score is an oracle). -/
structure Backend where
  entries : List Doc
  init_ok : Bool
  search_fails : Bool
  score : String → Doc → Nat

/-- Modelled from the spec: Chroma `similarity_search` with an optional
`user_id` equality filter — entries are filtered by metadata equality first,
then ranked by similarity, and the `k` best are returned (Chroma itself is
library code, not in the repository; this follows the spec's Vector Index
query contract). -/
def similarity_search (b : Backend) (q : String) (k : Nat) (filt : Option String) : List Doc :=
  let pool : List Doc :=
    match filt with
    | some uid => b.entries.filter fun d => d.metadata.user_id == uid
    | none => b.entries
  (pool.insertionSort fun d1 d2 => b.score q d2 ≤ b.score q d1).take k

/-- Shallow embedding of `query_vectorstore`
(`app/services/vector_store_service.py`).  A blank query returns `[]`; every
failure path returns `[]` instead of raising; when `user_id` is `None` or
empty (falsy in Python) no filter is passed to the search.  The `tenacity`
retry wrapper never re-runs the body, because the body never raises. -/
def query_vectorstore (b : Backend) (q : String) (top_k : Nat)
    (user_id : Option String) : List Doc :=
  if pyStrip q = "" then []
  else if b.init_ok = false then []
  else if b.search_fails = true then []
  else
    match user_id with
    | some uid =>
      if uid = "" then similarity_search b q top_k none
      else similarity_search b q top_k (some uid)
    | none => similarity_search b q top_k none

/-- Shallow embedding of `RAG_PROMPT_TEMPLATE` (`app/services/rag_service.py`)
with date, context and question substituted (the ASCII apostrophe of the
Python literal is rendered as U+2019, like the other apostrophes of the
template). -/
def rag_prompt (date context question : String) : String :=
  "\nAs a knowledge-bound assistant, adhere strictly to these rules:\n\nContext-Only Responses\n\nBase answers exclusively on the provided context. Never rely on prior knowledge or assumptions.\n\nIf the context is insufficient, explicitly state: \"I don’t have sufficient context to address this.\"\n\nPrecision & Transparency\n\nAcknowledge ambiguities/conflicts in the context (e.g., \"The context suggests two possibilities...\").\n\nFor partial answers, specify limitations (e.g., \"The context only mentions X, but doesn’t cover Y\").\n\nAnti-Hallucination Safeguards\n\nNever invent: names, dates, statistics, or domain-specific facts absent from the context.\n\nReject speculative phrasing like \"probably,\" \"likely,\" or \"it’s possible that\" unless explicitly stated.\n\nResponse Structure\n\nPrioritize clarity over brevity. Use bullet points or numbered lists for multi-part answers.\n\nBegin with a direct answer, followed by context-supported details.\n\nEdge Case Handling\n\nIf the query is out of scope or nonsensical, respond: \"Could you clarify or provide additional context?\"\n\nFor ethically questionable requests, decline politely without elaboration.\n\nFor your reference, today’s date is "
    ++ date ++ ".\n\nContext:\n" ++ context ++ "\n\nQuestion: " ++ question
    ++ "\n\nAnswer (be detailed and include relevant source citations in parentheses):"

/-- One block of `format_documents`: the Python f-string
`"Document {i+1} [{source}]:\n{page_content}\n"`, where the source citation
carries the page suffix exactly when the page metadata value is truthy
(non-empty). -/
def formatBlock (i : Nat) (d : Doc) : String :=
  "Document " ++ toString (i + 1) ++ " ["
    ++ (d.metadata.document
        ++ (if d.metadata.page ≠ "" then " (Page " ++ d.metadata.page ++ ")" else ""))
    ++ "]:\n" ++ d.page_content ++ "\n"

/-- Shallow embedding of `format_documents` (`app/services/rag_service.py`):
enumerate the retrieved documents, render one block each, join with
newlines. -/
def format_documents (docs : List Doc) : String :=
  String.intercalate "\n"
    (docs.foldl (fun acc d => (acc.1 ++ [formatBlock acc.2 d], acc.2 + 1))
      (([] : List String), 0)).1

/-- Stated from the spec, for comparison with the code (claim C9): block `n`
(1-based) is the chunk text prefixed by its index and a bracketed citation
string — `"{document}"` when no page is present, `"{document} (Page N)"` when
the page is present. -/
def contextBlockSpec (n : Nat) (d : Doc) : String :=
  "Document " ++ toString n ++ " ["
    ++ (d.metadata.document
        ++ (if d.metadata.page ≠ "" then " (Page " ++ d.metadata.page ++ ")" else ""))
    ++ "]:\n" ++ d.page_content ++ "\n"

/-- One element of the `sources` list returned by `query_documents`. -/
structure Source where
  document : String
  page : String
  text : String
  deriving DecidableEq, Repr

/-- The source dict built by `query_documents` for one retrieved document. -/
def docToSource (d : Doc) : Source :=
  Source.mk d.metadata.document d.metadata.page d.page_content

deriving instance DecidableEq for Except

/-- Result of `query_documents`: the returned pair (or the propagated
exception), together with whether the generation provider was invoked. -/
structure QueryOutcome where
  result : Except String (String × List Source)
  llm_invoked : Bool
  deriving DecidableEq, Repr

/-- Shallow embedding of `query_documents` (`app/services/rag_service.py`).
The generation provider (`get_llm` plus `chain.invoke`) is the oracle `llm`;
`today` stands for the formatted current date.  A generation failure is
logged and re-raised (the `tenacity` retry repeats the same failing call). -/
def query_documents (b : Backend) (llm : String → Except String String)
    (today : String) (q : String) (top_k : Nat) (user_id : Option String) : QueryOutcome :=
  let docs := query_vectorstore b q top_k user_id
  if docs = [] then
    QueryOutcome.mk (.ok ("No relevant documents found to answer your question.", [])) false
  else
    match llm (rag_prompt today (format_documents docs) q) with
    | .ok answer_text => QueryOutcome.mk (.ok (answer_text, docs.map docToSource)) true
    | .error e => QueryOutcome.mk (.error e) true

/-- Result of `delete_document_from_vectorstore`: the store after the call,
the number of entries deleted (which the Python code only logs), and the
function's return value — Python `None` on every path, modelled as `none`. -/
structure DeleteOutcome where
  store : List Doc
  removed : Nat
  ret : Option Nat
  deriving DecidableEq, Repr

/-- Shallow embedding of `delete_document_from_vectorstore`
(`app/services/vector_store_service.py`).  A falsy (empty) `document_id`
returns immediately; otherwise the entries matching the where-filter
`document_id $eq` are fetched and deleted by id, regardless of their owner.
The Python function has no return statement with a value, so `ret` is always
`none`. -/
def delete_document_from_vectorstore (store : List Doc) (document_id : String) : DeleteOutcome :=
  if document_id = "" then DeleteOutcome.mk store 0 none
  else if (store.filter fun d => d.metadata.document_id == document_id).length > 0 then
    DeleteOutcome.mk (store.filter fun d => !(d.metadata.document_id == document_id))
      (store.filter fun d => d.metadata.document_id == document_id).length none
  else DeleteOutcome.mk store 0 none

/-- External collaborators of the ingestion path: the format readers (pypdf
page texts, python-docx paragraph texts, the text-file content) and whether
adding to the vector store fails.  A reader error stands for any exception
raised while extracting. -/
structure IngestEnv where
  pdf_pages : String → Except String (List String)
  docx_paragraphs : String → Except String (List String)
  txt_content : String → Except String String
  add_fails : Bool

/-- Conversion performed by `add_documents_to_vectorstore`: each chunk dict
becomes a langchain `Document`. -/
def chunkToDoc (c : ChunkRec) : Doc := Doc.mk c.text c.metadata

/-- Shallow embedding of `add_documents_to_vectorstore`
(`app/services/vector_store_service.py`): an empty chunk list is a logged
no-op; a store failure raises (the retries repeat the same failure);
otherwise the chunks are appended to the index. -/
def add_documents_to_vectorstore (add_fails : Bool) (store : List Doc)
    (chunks : List ChunkRec) : Except String (List Doc) :=
  if chunks = [] then .ok store
  else if add_fails then .error "add failed"
  else .ok (store ++ chunks.map chunkToDoc)

/-- Shallow embedding of `process_pdf` (`app/services/document_service.py`):
pages are numbered from 1, pages with blank text are skipped, and any
extraction error is caught and turned into an empty chunk list. -/
def process_pdf (env : IngestEnv) (file_path document_id filename user_id now : String) :
    List ChunkRec :=
  match env.pdf_pages file_path with
  | .error _ => []
  | .ok pages =>
    create_chunks_with_metadata
      (pages.enum.filterMap fun it =>
        if pyStrip it.2 = "" then none else some (some (it.1 + 1), it.2))
      document_id filename user_id now

/-- Shallow embedding of `process_docx`: non-blank paragraphs joined with
newlines form a single unit whose page label is absent (`None`); extraction
errors are caught and yield no chunks. -/
def process_docx (env : IngestEnv) (file_path document_id filename user_id now : String) :
    List ChunkRec :=
  match env.docx_paragraphs file_path with
  | .error _ => []
  | .ok paras =>
    create_chunks_with_metadata
      [(none, String.intercalate "\n" (paras.filter fun p => !(pyStrip p == "")))]
      document_id filename user_id now

/-- Shallow embedding of `process_txt`: the file content is one unit with no
page label; a blank file yields no chunks; read errors are caught and yield
no chunks (the encoding fallback collapses into the reader oracle). -/
def process_txt (env : IngestEnv) (file_path document_id filename user_id now : String) :
    List ChunkRec :=
  match env.txt_content file_path with
  | .error _ => []
  | .ok text =>
    if pyStrip text = "" then []
    else create_chunks_with_metadata [(none, text)] document_id filename user_id now

/-- Shallow embedding of `process_document`
(`app/services/document_service.py`).  Dispatch is by filename suffix; an
unsupported type only logs and returns; a vector-store add failure is caught
and logged; the outer `try/except` catches everything else — so the function
always returns normally and its only observable effect is the new state of
the index, returned here.  `extract_chunks` is the dispatch at the top of the
Python function (the value of its `text_chunks` variable, `None` standing for
the unsupported-type branch). -/
def extract_chunks (env : IngestEnv)
    (file_path document_id filename user_id now : String) : Option (List ChunkRec) :=
  if pyEndsWith file_path ".pdf" then
    some (process_pdf env file_path document_id filename user_id now)
  else if pyEndsWith file_path ".docx" then
    some (process_docx env file_path document_id filename user_id now)
  else if pyEndsWith file_path ".txt" then
    some (process_txt env file_path document_id filename user_id now)
  else none

def process_document (env : IngestEnv) (store : List Doc)
    (file_path document_id filename user_id now : String) : List Doc :=
  match extract_chunks env file_path document_id filename user_id now with
  | none => store
  | some chunks =>
    if chunks = [] then store
    else
      match add_documents_to_vectorstore env.add_fails store chunks with
      | .ok store2 => store2
      | .error _ => store

/-- Sample entry owned by user `"A"`, used by witness theorems. -/
def wDocA : Doc :=
  Doc.mk "alpha invoice" (Metadata.mk "doc1" "a.pdf" "1" "alpha invoice" "A" "a.pdf (page 1)" "t0")

/-- Sample entry owned by user `"B"`, used by witness theorems. -/
def wDocB : Doc :=
  Doc.mk "beta invoice" (Metadata.mk "doc2" "b.pdf" "2" "beta invoice" "B" "b.pdf (page 2)" "t0")

/-- Sample entry whose `document_id` is the empty string, used by the
counterexample for the delete claim. -/
def wDocEmptyId : Doc :=
  Doc.mk "orphan" (Metadata.mk "" "c.txt" "0" "orphan" "A" "c.txt" "t0")

/-- Sample backend holding entries of two different owners. -/
def wBackendAB : Backend :=
  Backend.mk [wDocA, wDocB] true false fun _ _ => 0

/-- Sample backend with an empty index. -/
def wBackendEmpty : Backend :=
  Backend.mk [] true false fun _ _ => 0

/-- Sample ingestion environment whose vector-store add fails. -/
def wEnvAddFails : IngestEnv :=
  IngestEnv.mk (fun _ => .ok ["hello"]) (fun _ => .ok []) (fun _ => .ok "") true

/-- Sample ingestion environment whose PDF extraction raises. -/
def wEnvPdfError : IngestEnv :=
  IngestEnv.mk (fun _ => .error "bad pdf") (fun _ => .ok []) (fun _ => .ok "") false

/-- The character blocks concatenate back to the input, for any fuel. -/
theorem charBlocksF_flatten (cs : Nat) :
    ∀ fuel l, (charBlocksF cs fuel l).flatten = l := by
  intro fuel
  induction fuel with
  | zero => intro l; cases l <;> simp [charBlocksF]
  | succ n ih =>
    intro l
    cases l with
    | nil => simp [charBlocksF]
    | cons c rest => simp [charBlocksF, ih]

/-- With enough fuel and a positive block size, every block fits. -/
theorem charBlocksF_length (cs : Nat) (hcs : 0 < cs) :
    ∀ fuel l c, l.length ≤ fuel → c ∈ charBlocksF cs fuel l → c.length ≤ cs := by
  intro fuel
  induction fuel with
  | zero =>
    intro l c hlen hc
    cases l with
    | nil => simp [charBlocksF] at hc
    | cons a as => simp at hlen
  | succ n ih =>
    intro l c hlen hc
    cases l with
    | nil => simp [charBlocksF] at hc
    | cons a as =>
      simp only [charBlocksF, List.mem_cons] at hc
      rcases hc with h | h
      · subst h; simp
      · refine ih _ _ ?_ h
        simp at hlen ⊢
        omega

/-- The separator split concatenates back to the original input. -/
theorem splitKeepGoF_flatten (s0 : Char) (st : List Char) :
    ∀ fuel l acc, (splitKeepGoF s0 st fuel l acc).flatten = acc.reverse ++ l := by
  intro fuel
  induction fuel with
  | zero =>
    intro l acc
    cases l with
    | nil => cases acc <;> simp [splitKeepGoF]
    | cons c rest => simp [splitKeepGoF]
  | succ n ih =>
    intro l acc
    cases l with
    | nil => cases acc <;> simp [splitKeepGoF]
    | cons c rest =>
      simp only [splitKeepGoF]
      by_cases hp : (s0 :: st).isPrefixOf (c :: rest)
      · rw [if_pos hp]
        obtain ⟨t, ht⟩ := List.isPrefixOf_iff_prefix.mp hp
        rw [List.cons_append] at ht
        injection ht with hc1 hc2
        have hdrop : rest.drop st.length = t := by
          rw [← hc2]; exact List.drop_left st t
        simp only [List.flatten_cons, ih, List.reverse_nil, List.nil_append, hdrop]
        subst hc1
        rw [List.append_assoc]
        simp [← hc2]
      · rw [if_neg hp]
        rw [ih]
        simp

/-- One level of separator splitting concatenates back to the input. -/
theorem splitListKeep_flatten (sep l : List Char) :
    (splitListKeep sep l).flatten = l := by
  cases sep with
  | nil => simp [splitListKeep]
  | cons s0 st => simp [splitListKeep, splitKeepGoF_flatten]

/-- Auxiliary: if every group of a piece list flattens back to its piece,
the doubly flattened map equals the flattened piece list. -/
theorem flatten_map_of_flatten_eq (f : List Char → List (List Char)) :
    ∀ ps : List (List Char), (∀ p ∈ ps, (f p).flatten = p) →
      ((ps.map f).flatten).flatten = ps.flatten := by
  intro ps
  induction ps with
  | nil => intro _; simp
  | cons p rest ih =>
    intro h
    simp only [List.map_cons, List.flatten_cons, List.flatten_append]
    rw [h p (List.mem_cons_self p rest), ih fun q hq => h q (List.mem_cons_of_mem _ hq)]

/-- The recursive splitter's pieces concatenate back to the input text. -/
theorem splitRec_flatten (cs : Nat) :
    ∀ seps l, (splitRec cs seps l).flatten = l := by
  intro seps
  induction seps with
  | nil =>
    intro l
    unfold splitRec
    split
    · simp
    · simp [charBlocks, charBlocksF_flatten]
  | cons sep rest ih =>
    intro l
    unfold splitRec
    split
    · simp
    · rw [flatten_map_of_flatten_eq _ _ fun p _ => ih p]
      exact splitListKeep_flatten sep l

/-- With a positive chunk size, every piece of the recursive splitter is at
most `cs` characters long. -/
theorem splitRec_piece_length (cs : Nat) (hcs : 0 < cs) :
    ∀ seps l c, c ∈ splitRec cs seps l → c.length ≤ cs := by
  intro seps
  induction seps with
  | nil =>
    intro l c hc
    unfold splitRec at hc
    split at hc
    · rename_i h; simp at hc; subst hc; exact h
    · exact charBlocksF_length cs hcs _ _ _ (le_refl _) hc
  | cons sep rest ih =>
    intro l c hc
    unfold splitRec at hc
    split at hc
    · rename_i h; simp at hc; subst hc; exact h
    · obtain ⟨g, hg, hcg⟩ := List.mem_flatten.mp hc
      obtain ⟨p, _, rfl⟩ := List.mem_map.mp hg
      exact ih p c hcg

/-- Total length distributes over append. -/
theorem totLen_append (a b : List (List Char)) :
    totLen (a ++ b) = totLen a + totLen b := by
  simp [totLen]

/-- The length of a merged chunk, by fields. -/
theorem chunkLen_mk (c f : List (List Char)) :
    chunkLen (MC.mk c f) = totLen c + totLen f := by
  simp [chunkLen, chunkPieces, totLen_append]

/-- The bounded prefix really is a prefix. -/
theorem prefixLE_front : ∀ (m : Nat) (l : List (List Char)), prefixLE m l <+: l := by
  intro m l
  induction l generalizing m with
  | nil => simp [prefixLE]
  | cons p rest ih =>
    unfold prefixLE
    by_cases h : p.length ≤ m
    · rw [if_pos h]
      obtain ⟨t, ht⟩ := ih (m - p.length)
      exact ⟨t, by rw [List.cons_append, ht]⟩
    · rw [if_neg h]
      exact ⟨p :: rest, rfl⟩

/-- The bounded prefix's total length respects the bound. -/
theorem prefixLE_totLen : ∀ (m : Nat) (l : List (List Char)), totLen (prefixLE m l) ≤ m := by
  intro m l
  induction l generalizing m with
  | nil => simp [prefixLE, totLen]
  | cons p rest ih =>
    unfold prefixLE
    by_cases h : p.length ≤ m
    · rw [if_pos h]
      have := ih (m - p.length)
      simp only [totLen, List.map_cons, List.sum_cons]
      simp only [totLen] at this
      omega
    · rw [if_neg h]
      simp [totLen]

/-- The bounded suffix really is a suffix. -/
theorem suffixLE_back (m : Nat) (l : List (List Char)) : suffixLE m l <:+ l := by
  obtain ⟨t, ht⟩ := prefixLE_front m l.reverse
  refine ⟨t.reverse, ?_⟩
  have : (prefixLE m l.reverse ++ t).reverse = l.reverse.reverse := by rw [ht]
  simpa [List.reverse_append] using this

/-- The bounded suffix's total length respects the bound. -/
theorem suffixLE_totLen (m : Nat) (l : List (List Char)) : totLen (suffixLE m l) ≤ m := by
  have h := prefixLE_totLen m l.reverse
  unfold suffixLE totLen
  rw [List.map_reverse, List.sum_reverse]
  exact h

/-- The fresh pieces of the merged chunks are exactly the input pieces still
to be processed, appended to the current chunk's fresh pieces. -/
theorem mergeGo_fresh_flatten (cs ov : Nat) :
    ∀ rest cur, ((mergeGo cs ov cur rest).map MC.fresh).flatten = cur.fresh ++ rest := by
  intro rest
  induction rest with
  | nil => intro cur; simp [mergeGo]
  | cons p ps ih =>
    intro cur
    simp only [mergeGo]
    by_cases h : chunkLen cur + p.length ≤ cs
    · rw [if_pos h, ih]
      simp
    · rw [if_neg h]
      simp only [List.map_cons, List.flatten_cons, ih]
      simp

/-- The fresh pieces of all merged chunks are exactly the input pieces. -/
theorem mergePieces_fresh_flatten (cs ov : Nat) (pieces : List (List Char)) :
    ((mergePieces cs ov pieces).map MC.fresh).flatten = pieces := by
  cases pieces with
  | nil => simp [mergePieces]
  | cons p ps => simp [mergePieces, mergeGo_fresh_flatten]

/-- Merging never changes the carry of the chunk currently being built: the
first emitted chunk keeps the carry it started with. -/
theorem mergeGo_head (cs ov : Nat) :
    ∀ rest cur, ∃ f t, mergeGo cs ov cur rest = MC.mk cur.carry f :: t := by
  intro rest
  induction rest with
  | nil => intro cur; exact ⟨cur.fresh, [], by simp [mergeGo]⟩
  | cons p ps ih =>
    intro cur
    simp only [mergeGo]
    by_cases h : chunkLen cur + p.length ≤ cs
    · rw [if_pos h]
      exact ih ⟨cur.carry, cur.fresh ++ [p]⟩
    · rw [if_neg h]
      exact ⟨cur.fresh, _, rfl⟩

/-- Consecutive merged chunks overlap correctly: each later chunk's carry is
a suffix of the pieces of the chunk before it, of total length at most the
configured overlap. -/
theorem mergeGo_chain (cs ov : Nat) :
    ∀ rest cur,
      List.Chain' (fun a b => b.carry <:+ chunkPieces a ∧ totLen b.carry ≤ ov)
        (mergeGo cs ov cur rest) := by
  intro rest
  induction rest with
  | nil => intro cur; simp [mergeGo]
  | cons p ps ih =>
    intro cur
    simp only [mergeGo]
    by_cases h : chunkLen cur + p.length ≤ cs
    · rw [if_pos h]
      exact ih _
    · rw [if_neg h]
      obtain ⟨f, t, ht⟩ :=
        mergeGo_head cs ov ps ⟨suffixLE (min ov (cs - p.length)) (chunkPieces cur), [p]⟩
      rw [ht]
      refine List.chain'_cons.mpr ⟨⟨suffixLE_back _ _, ?_⟩, ?_⟩
      · exact le_trans (suffixLE_totLen _ _) (min_le_left _ _)
      · rw [← ht]
        exact ih _

/-- If the current chunk fits and every remaining piece fits, every merged
chunk fits in `cs` characters. -/
theorem mergeGo_len (cs ov : Nat) :
    ∀ rest cur, chunkLen cur ≤ cs → (∀ p ∈ rest, p.length ≤ cs) →
      ∀ c ∈ mergeGo cs ov cur rest, chunkLen c ≤ cs := by
  intro rest
  induction rest with
  | nil =>
    intro cur hcur _ c hc
    simp [mergeGo] at hc
    subst hc
    exact hcur
  | cons p ps ih =>
    intro cur hcur hrest c hc
    have hp : p.length ≤ cs := hrest p (List.mem_cons_self p ps)
    have hps : ∀ q ∈ ps, q.length ≤ cs := fun q hq => hrest q (List.mem_cons_of_mem _ hq)
    simp only [mergeGo] at hc
    by_cases h : chunkLen cur + p.length ≤ cs
    · rw [if_pos h] at hc
      refine ih _ ?_ hps c hc
      have hstep : chunkLen (MC.mk cur.carry (cur.fresh ++ [p]))
          = chunkLen cur + p.length := by
        simp [chunkLen, chunkPieces, totLen, List.append_assoc]
        omega
      omega
    · rw [if_neg h] at hc
      rcases List.mem_cons.mp hc with h1 | h2
      · subst h1; exact hcur
      · refine ih _ ?_ hps c h2
        have hsuf := suffixLE_totLen (min ov (cs - p.length)) (chunkPieces cur)
        have hmin : min ov (cs - p.length) ≤ cs - p.length := min_le_right _ _
        have hstep : chunkLen (MC.mk (suffixLE (min ov (cs - p.length)) (chunkPieces cur)) [p])
            = totLen (suffixLE (min ov (cs - p.length)) (chunkPieces cur)) + p.length := by
          simp [chunkLen_mk, totLen]
        omega

/-- If every piece fits, every merged chunk fits in `cs` characters. -/
theorem mergePieces_len (cs ov : Nat) (pieces : List (List Char))
    (h : ∀ p ∈ pieces, p.length ≤ cs) :
    ∀ c ∈ mergePieces cs ov pieces, chunkLen c ≤ cs := by
  cases pieces with
  | nil => intro c hc; simp [mergePieces] at hc
  | cons p ps =>
    intro c hc
    refine mergeGo_len cs ov ps ⟨[], [p]⟩ ?_
      (fun q hq => h q (List.mem_cons_of_mem _ hq)) c hc
    have := h p (List.mem_cons_self p ps)
    simp [chunkLen_mk, totLen]
    omega

/-- Every chunk of a unit fits in `cs` characters, for positive `cs`. -/
theorem chunkUnit_len (cs ov : Nat) (hcs : 0 < cs) (l : List Char) :
    ∀ c ∈ chunkUnit cs ov l, chunkLen c ≤ cs :=
  mergePieces_len cs ov _ fun p hp => splitRec_piece_length cs hcs _ l p hp

/-- Auxiliary: flattening each chunk's fresh pieces first is the same as
flattening twice. -/
theorem map_fresh_flatten_comm :
    ∀ L : List MC, (L.map fun c => c.fresh.flatten).flatten = ((L.map MC.fresh).flatten).flatten := by
  intro L
  induction L with
  | nil => simp
  | cons c rest ih => simp [ih]

/-- The fresh (non-overlap) pieces of a unit's chunks concatenate back to
the unit text. -/
theorem chunkUnit_fresh_text (cs ov : Nat) (l : List Char) :
    ((chunkUnit cs ov l).map fun c => c.fresh.flatten).flatten = l := by
  rw [map_fresh_flatten_comm]
  unfold chunkUnit
  rw [mergePieces_fresh_flatten]
  exact splitRec_flatten cs defaultSeparators l

/-- Consecutive chunks of a unit overlap by a suffix of the previous chunk
of total length at most the configured overlap. -/
theorem chunkUnit_chain (cs ov : Nat) (l : List Char) :
    List.Chain' (fun a b => b.carry <:+ chunkPieces a ∧ totLen b.carry ≤ ov)
      (chunkUnit cs ov l) := by
  unfold chunkUnit
  cases h : splitRec cs defaultSeparators l with
  | nil => simp [mergePieces]
  | cons p ps => exact mergeGo_chain cs ov ps ⟨[], [p]⟩

/-- The first chunk of a unit carries no overlap. -/
theorem chunkUnit_first_carry (cs ov : Nat) (l : List Char) :
    (((chunkUnit cs ov l).head?).map MC.carry).getD [] = [] := by
  unfold chunkUnit
  cases h : splitRec cs defaultSeparators l with
  | nil => simp [mergePieces]
  | cons p ps =>
    obtain ⟨f, t, ht⟩ := mergeGo_head cs ov ps ⟨[], [p]⟩
    simp [mergePieces, ht]

/-- Every chunk string produced by the modelled splitter is at most `cs`
characters long, for positive `cs`. -/
theorem split_text_chunk_length (cs ov : Nat) (hcs : 0 < cs) (s : String) :
    ∀ c ∈ split_text cs ov s, c.length ≤ cs := by
  intro c hc
  unfold split_text at hc
  split at hc
  · simp at hc
  · obtain ⟨mc, hmc, rfl⟩ := List.mem_map.mp hc
    have hlen := chunkUnit_len cs ov hcs s.data mc hmc
    have heq : (String.mk (chunkText mc)).length = chunkLen mc := by
      show (chunkText mc).length = chunkLen mc
      unfold chunkText chunkLen totLen
      exact List.length_flatten _
    omega

/-- Auxiliary: filtering by a predicate after keeping only its complement
yields nothing. -/
theorem filter_not_filter {α : Type} (p : α → Bool) :
    ∀ l : List α, ((l.filter fun a => !(p a)).filter fun a => p a) = [] := by
  intro l
  induction l with
  | nil => rfl
  | cons a rest ih => by_cases h : p a <;> simp [h, ih]

/-- Auxiliary: the fold inside `format_documents` produces one block per
document, numbered from the running index. -/
theorem format_documents_foldl_eq :
    ∀ (docs : List Doc) (acc : List String) (i : Nat),
      (docs.foldl (fun a d => (a.1 ++ [formatBlock a.2 d], a.2 + 1)) (acc, i)).1
        = acc ++ (docs.enumFrom i).map fun p => formatBlock p.1 p.2 := by
  intro docs
  induction docs with
  | nil => intro acc i; simp
  | cons d ds ih =>
    intro acc i
    simp only [List.foldl_cons]
    rw [ih]
    simp [List.enumFrom]

/-- C1: for every query call that supplies a non-empty owner identifier
(`user_id`), every entry in the returned result sequence has
`metadata.user_id` equal to that identifier; an entry of another owner is
never returned to a query filtered by this owner. -/
theorem query_vectorstore_owner_isolation :
    ∀ (b : Backend) (q : String) (k : Nat) (uid : String) (d : Doc),
      uid ≠ "" → d ∈ query_vectorstore b q k (some uid) →
      d.metadata.user_id = uid := by
  intro b q k uid d hu hd
  unfold query_vectorstore at hd
  split at hd
  · exact absurd hd (List.not_mem_nil d)
  split at hd
  · exact absurd hd (List.not_mem_nil d)
  split at hd
  · exact absurd hd (List.not_mem_nil d)
  have hd2 : d ∈ (if uid = "" then similarity_search b q k none
      else similarity_search b q k (some uid)) := hd
  rw [if_neg hu] at hd2
  simp only [similarity_search] at hd2
  have h1 := List.mem_of_mem_take hd2
  rw [List.mem_insertionSort] at h1
  exact eq_of_beq (List.mem_filter.mp h1).2

/-- C1 witness: with an index holding entries of owners `"A"` and `"B"`, an
entry returned to the query filtered by `"A"` belongs to `"A"`. -/
theorem query_vectorstore_owner_isolation_witness :
    wDocA ∈ query_vectorstore wBackendAB "invoice" 2 (some "A")
    ∧ wDocA.metadata.user_id = "A" :=
  ⟨by decide,
   query_vectorstore_owner_isolation wBackendAB "invoice" 2 "A" wDocA (by decide) (by decide)⟩

/-- C4: whenever the underlying vector-store query fails (the store cannot
be initialised, or the similarity search raises — and the retries repeat the
same failure), `query_vectorstore` returns the empty result sequence instead
of propagating the error. -/
theorem query_vectorstore_failure_returns_empty :
    ∀ (b : Backend) (q : String) (k : Nat) (uid : Option String),
      b.init_ok = false ∨ b.search_fails = true →
      query_vectorstore b q k uid = [] := by
  intro b q k uid h
  unfold query_vectorstore
  rcases h with h | h <;> simp [h]

/-- C4 witness: a failing search on a non-empty index yields `[]`. -/
theorem query_vectorstore_failure_returns_empty_witness :
    query_vectorstore (Backend.mk [wDocA] true true fun _ _ => 0) "q" 3 (some "A") = [] :=
  query_vectorstore_failure_returns_empty _ "q" 3 (some "A") (Or.inr rfl)

/-- C10: when `query_vectorstore` is called with `user_id` absent (`None`)
or equal to the empty string, no owner filter is applied: the similarity
search ranks the entire index, so the returned entries may carry any
`metadata.user_id` value. -/
theorem query_vectorstore_unfiltered_when_owner_falsy :
    ∀ (b : Backend) (q : String) (k : Nat),
      pyStrip q ≠ "" → b.init_ok = true → b.search_fails = false →
      query_vectorstore b q k none
          = ((b.entries.insertionSort fun d1 d2 => b.score q d2 ≤ b.score q d1).take k)
        ∧ query_vectorstore b q k (some "")
          = ((b.entries.insertionSort fun d1 d2 => b.score q d2 ≤ b.score q d1).take k) := by
  intro b q k hq hi hs
  constructor <;> simp [query_vectorstore, similarity_search, hq, hi, hs]

/-- C10 witness: with no owner identifier the query over the two-owner index
ranks all entries — including the entry owned by `"B"`. -/
theorem query_vectorstore_unfiltered_when_owner_falsy_witness :
    query_vectorstore wBackendAB "invoice" 2 none
        = ((wBackendAB.entries.insertionSort fun d1 d2 =>
              wBackendAB.score "invoice" d2 ≤ wBackendAB.score "invoice" d1).take 2)
      ∧ query_vectorstore wBackendAB "invoice" 2 (some "")
        = ((wBackendAB.entries.insertionSort fun d1 d2 =>
              wBackendAB.score "invoice" d2 ≤ wBackendAB.score "invoice" d1).take 2) :=
  query_vectorstore_unfiltered_when_owner_falsy wBackendAB "invoice" 2 (by decide) rfl rfl

/-- C2: when retrieval comes back empty, `query_documents` returns exactly
the fixed no-documents message with an empty sources list, as a normal
(non-error) outcome, and the generation provider is never invoked. -/
theorem query_documents_empty_retrieval :
    ∀ (b : Backend) (llm : String → Except String String) (today q : String)
      (k : Nat) (uid : Option String),
      query_vectorstore b q k uid = [] →
      query_documents b llm today q k uid
        = QueryOutcome.mk
            (.ok ("No relevant documents found to answer your question.", [])) false := by
  intro b llm today q k uid h
  unfold query_documents
  simp [h]

/-- C2 witness: an empty index gives the fixed message, no sources, and no
LLM call, with an LLM oracle that would fail if it were ever consulted. -/
theorem query_documents_empty_retrieval_witness :
    query_documents wBackendEmpty (fun _ => Except.error "no api key")
        "2026-10-12" "tax" 3 (some "alice")
      = QueryOutcome.mk
          (.ok ("No relevant documents found to answer your question.", [])) false :=
  query_documents_empty_retrieval wBackendEmpty (fun _ => Except.error "no api key")
    "2026-10-12" "tax" 3 (some "alice") (by decide)

/-- C5: `process_document` always returns normally (every exception path is
caught), its only possible effect on the index is appending the ingested
chunks, and on each failure mode — vector-store add failure, unsupported
file type, or a raising extractor (PDF, DOCX, or TXT) — the index does not
grow at all. -/
theorem process_document_never_raises :
    ∀ (env : IngestEnv) (store : List Doc) (fp did fn uid now : String),
      (∃ added, process_document env store fp did fn uid now = store ++ added)
      ∧ (env.add_fails = true → process_document env store fp did fn uid now = store)
      ∧ (pyEndsWith fp ".pdf" = false → pyEndsWith fp ".docx" = false →
          pyEndsWith fp ".txt" = false →
          process_document env store fp did fn uid now = store)
      ∧ (∀ e, pyEndsWith fp ".pdf" = true → env.pdf_pages fp = .error e →
          process_document env store fp did fn uid now = store)
      ∧ (∀ e, pyEndsWith fp ".docx" = true → pyEndsWith fp ".pdf" = false →
          env.docx_paragraphs fp = .error e →
          process_document env store fp did fn uid now = store)
      ∧ (∀ e, pyEndsWith fp ".txt" = true → pyEndsWith fp ".pdf" = false →
          pyEndsWith fp ".docx" = false → env.txt_content fp = .error e →
          process_document env store fp did fn uid now = store) := by
  intro env store fp did fn uid now
  refine ⟨?_, ?_, ?_, ?_, ?_, ?_⟩
  · unfold process_document
    split
    · exact ⟨[], by simp⟩
    · rename_i cks heq
      split
      · exact ⟨[], by simp⟩
      · rename_i hc
        unfold add_documents_to_vectorstore
        rw [if_neg hc]
        cases haf : env.add_fails with
        | true => exact ⟨[], by simp⟩
        | false => exact ⟨cks.map chunkToDoc, by simp⟩
  · intro haf
    unfold process_document
    split
    · rfl
    · rename_i cks heq
      split
      · rfl
      · rename_i hc
        unfold add_documents_to_vectorstore
        rw [if_neg hc, haf]
        simp
  · intro h1 h2 h3
    simp [process_document, extract_chunks, h1, h2, h3]
  · intro e hpdf herr
    simp [process_document, extract_chunks, process_pdf, hpdf, herr]
  · intro e hdocx hnpdf herr
    simp [process_document, extract_chunks, process_docx, hdocx, hnpdf, herr]
  · intro e htxt hnpdf hndocx herr
    simp [process_document, extract_chunks, process_txt, htxt, hnpdf, hndocx, herr]

/-- C5 witness: an add failure, a raising PDF extractor, and an unsupported
extension each leave the one-entry index exactly as it was. -/
theorem process_document_never_raises_witness :
    (∃ added, process_document wEnvAddFails [wDocA] "a.pdf" "doc9" "a.pdf" "A" "t1"
        = [wDocA] ++ added)
    ∧ process_document wEnvAddFails [wDocA] "a.pdf" "doc9" "a.pdf" "A" "t1" = [wDocA]
    ∧ process_document wEnvPdfError [wDocA] "a.pdf" "doc9" "a.pdf" "A" "t1" = [wDocA]
    ∧ process_document wEnvPdfError [wDocA] "notes.md" "doc9" "notes.md" "A" "t1" = [wDocA] :=
  ⟨(process_document_never_raises wEnvAddFails [wDocA] "a.pdf" "doc9" "a.pdf" "A" "t1").1,
   (process_document_never_raises wEnvAddFails [wDocA] "a.pdf" "doc9" "a.pdf" "A" "t1").2.1 rfl,
   (process_document_never_raises wEnvPdfError [wDocA] "a.pdf" "doc9" "a.pdf" "A" "t1").2.2.2.1
     "bad pdf" (by decide) rfl,
   (process_document_never_raises wEnvPdfError [wDocA] "notes.md" "doc9" "notes.md" "A"
     "t1").2.2.1 (by decide) (by decide) (by decide)⟩

/-- C3 counterexample: at the concrete input of a store holding one entry
whose `document_id` is `""` and a call with that id, the function neither
removes the matching entry nor returns the removed count — the claim as
stated fails there. -/
theorem delete_by_document_claim_counterexample :
    ¬ ((delete_document_from_vectorstore [wDocEmptyId] "").store = []
       ∧ (delete_document_from_vectorstore [wDocEmptyId] "").ret = some 1) := by
  decide

/-- C3 amended: for every non-empty `document_id`, the call removes exactly
the entries whose `metadata.document_id` equals the given id (keyed by the
document id alone, regardless of owner); it returns no value — the removed
count, 0 included, is only logged — and a second call for the same id
removes 0 entries. -/
theorem delete_document_scoped_by_id_only :
    ∀ (store : List Doc) (document_id : String), document_id ≠ "" →
      (delete_document_from_vectorstore store document_id).store
          = store.filter (fun d => !(d.metadata.document_id == document_id))
        ∧ (delete_document_from_vectorstore store document_id).removed
          = (store.filter fun d => d.metadata.document_id == document_id).length
        ∧ (delete_document_from_vectorstore store document_id).ret = none
        ∧ (delete_document_from_vectorstore
            (delete_document_from_vectorstore store document_id).store
            document_id).removed = 0 := by
  intro store id hid
  unfold delete_document_from_vectorstore
  rw [if_neg hid]
  by_cases hm : (store.filter fun d => d.metadata.document_id == id).length > 0
  · rw [if_pos hm]
    refine ⟨rfl, rfl, rfl, ?_⟩
    simp [filter_not_filter]
  · rw [if_neg hm]
    have hnil : (store.filter fun d => d.metadata.document_id == id) = [] := by
      rw [← List.length_eq_zero]
      omega
    have hall := List.filter_eq_nil_iff.mp hnil
    refine ⟨?_, by simp [hnil], rfl, by simp [hnil]⟩
    rw [List.filter_eq_self.mpr]
    intro d hd
    simp [hall d hd]

/-- C3 witness: deleting an existing document id from a one-entry store
empties it, logs 1 removed, returns nothing, and a repeat removes 0. -/
theorem delete_document_scoped_by_id_only_witness :
    (delete_document_from_vectorstore [wDocA] "doc1").store
        = [wDocA].filter (fun d => !(d.metadata.document_id == "doc1"))
      ∧ (delete_document_from_vectorstore [wDocA] "doc1").removed
        = ([wDocA].filter fun d => d.metadata.document_id == "doc1").length
      ∧ (delete_document_from_vectorstore [wDocA] "doc1").ret = none
      ∧ (delete_document_from_vectorstore
          (delete_document_from_vectorstore [wDocA] "doc1").store "doc1").removed = 0 :=
  delete_document_scoped_by_id_only [wDocA] "doc1" (by decide)

/-- C6: the produced chunk list decomposes into one group per unit, in unit
order, and every chunk of a group carries the scalar string page of its own
unit — the unit's label rendered as a string when the label is present, the
sentinel `"0"` when it is absent — with the chunk text coming from splitting
that same unit's text. -/
theorem create_chunks_page_sentinel :
    ∀ (units : List (Option Nat × String)) (did fn uid now : String),
      ∃ groups : List (List ChunkRec),
        create_chunks_with_metadata units did fn uid now = groups.flatten
        ∧ List.Forall₂ (fun (pt : Option Nat × String) (group : List ChunkRec) =>
            ∀ c ∈ group,
              c.metadata.page = pageLabel pt.1
              ∧ c.text ∈ split_text CHUNK_SIZE CHUNK_OVERLAP pt.2
              ∧ (pt.1 = none → c.metadata.page = "0")
              ∧ ∀ n, pt.1 = some n → c.metadata.page = toString n)
          units groups := by
  intro units did fn uid now
  refine ⟨_, rfl, ?_⟩
  rw [List.forall₂_map_right_iff]
  rw [List.forall₂_same]
  intro pt _ c hcin
  obtain ⟨chunk, hch, rfl⟩ := List.mem_map.mp hcin
  refine ⟨rfl, hch, ?_, ?_⟩
  · intro h
    show pageLabel pt.1 = "0"
    rw [h]
    rfl
  · intro n h
    show pageLabel pt.1 = toString n
    rw [h]
    rfl

/-- C6 witness: a two-unit batch — a labelled page and a label-less unit —
splits into per-unit groups whose chunks carry `"2"` and the sentinel `"0"`
respectively. -/
theorem create_chunks_page_sentinel_witness :
    ∃ groups : List (List ChunkRec),
      create_chunks_with_metadata [(some 2, "alpha"), (none, "beta")] "d" "f" "u" "t"
          = groups.flatten
      ∧ List.Forall₂ (fun (pt : Option Nat × String) (group : List ChunkRec) =>
          ∀ c ∈ group,
            c.metadata.page = pageLabel pt.1
            ∧ c.text ∈ split_text CHUNK_SIZE CHUNK_OVERLAP pt.2
            ∧ (pt.1 = none → c.metadata.page = "0")
            ∧ ∀ n, pt.1 = some n → c.metadata.page = toString n)
        [(some 2, "alpha"), (none, "beta")] groups :=
  create_chunks_page_sentinel [(some 2, "alpha"), (none, "beta")] "d" "f" "u" "t"

/-- C7: every chunk produced by the chunker has text of length at most the
configured chunk size of 1000 characters. -/
theorem create_chunks_text_le_chunk_size :
    ∀ (units : List (Option Nat × String)) (did fn uid now : String) (c : ChunkRec),
      c ∈ create_chunks_with_metadata units did fn uid now →
      c.text.length ≤ CHUNK_SIZE := by
  intro units did fn uid now c hc
  unfold create_chunks_with_metadata at hc
  obtain ⟨blk, hblk, hcin⟩ := List.mem_flatten.mp hc
  obtain ⟨pt, hpt, rfl⟩ := List.mem_map.mp hblk
  obtain ⟨chunk, hch, rfl⟩ := List.mem_map.mp hcin
  exact split_text_chunk_length CHUNK_SIZE CHUNK_OVERLAP (by decide) pt.2 chunk hch

/-- C7 witness: a concrete produced chunk obeys the bound. -/
theorem create_chunks_text_le_chunk_size_witness :
    (ChunkRec.mk "hello" (Metadata.mk "d" "f" "1" "hello" "u" "f (page 1)" "t"))
        ∈ create_chunks_with_metadata [(some 1, "hello")] "d" "f" "u" "t"
    ∧ (ChunkRec.mk "hello" (Metadata.mk "d" "f" "1" "hello" "u" "f (page 1)" "t")).text.length
        ≤ CHUNK_SIZE :=
  ⟨by decide,
   create_chunks_text_le_chunk_size [(some 1, "hello")] "d" "f" "u" "t"
     (ChunkRec.mk "hello" (Metadata.mk "d" "f" "1" "hello" "u" "f (page 1)" "t")) (by decide)⟩

/-- C8: for every unit text, the chunk sequence has the round-trip and
overlap properties — each chunk after the first starts with a suffix of the
previous chunk's pieces of total length at most the configured overlap of
200, the first chunk carries no overlap, and concatenating the chunks'
non-overlap (fresh) regions reconstructs the unit text exactly. -/
theorem chunker_overlap_roundtrip (l : List Char) :
    List.Chain' (fun a b => b.carry <:+ chunkPieces a ∧ totLen b.carry ≤ CHUNK_OVERLAP)
      (chunkUnit CHUNK_SIZE CHUNK_OVERLAP l)
    ∧ ((chunkUnit CHUNK_SIZE CHUNK_OVERLAP l).map fun c => c.fresh.flatten).flatten = l
    ∧ (((chunkUnit CHUNK_SIZE CHUNK_OVERLAP l).head?).map MC.carry).getD [] = [] :=
  ⟨chunkUnit_chain CHUNK_SIZE CHUNK_OVERLAP l,
   chunkUnit_fresh_text CHUNK_SIZE CHUNK_OVERLAP l,
   chunkUnit_first_carry CHUNK_SIZE CHUNK_OVERLAP l⟩

/-- C9: for every non-empty list of retrieved chunks, the assembled context
is the newline-joined concatenation of one block per chunk, block `i`
(1-based) being the chunk text prefixed by its index and the bracketed
citation string of the spec. -/
theorem format_documents_is_enumerated_blocks :
    ∀ docs : List Doc, docs ≠ [] →
      format_documents docs
        = String.intercalate "\n" (docs.enum.map fun p => contextBlockSpec (p.1 + 1) p.2) := by
  intro docs _
  unfold format_documents
  rw [format_documents_foldl_eq]
  rfl

/-- C9 witness: the context for a single retrieved chunk with a page. -/
theorem format_documents_is_enumerated_blocks_witness :
    format_documents [wDocA]
      = String.intercalate "\n" ([wDocA].enum.map fun p => contextBlockSpec (p.1 + 1) p.2) :=
  format_documents_is_enumerated_blocks [wDocA] (by decide)
